import Mathlib

/-!
# Verification of the iris-contrib/sessiondb session stores

A shallow embedding of the two session-storage backends of this repository:

* `mongostore` (src/mongostore/database.go): each session id names a MongoDB
  collection; every entry is a document with string fields `key` and `value`,
  where `value` is the base64 encoding of the transcoder-serialized payload.
* `dgraphstore` (src/examples/dgraph/main.go, second file): every entry is a
  graph node carrying string predicates `sid`, `skey`, `svalue` and
  `dgraph.type`; queries filter on `skey`/`sid` equality.

The database clients, the `sessions.DefaultTranscoder` and `encoding/base64`
are external collaborators; they are modelled at the level of their contracts
(documented on each definition).  Everything written by the repository's own
code — document shapes, filters, update documents, query/mutation structure,
branch logic — is translated directly from the Go source.
-/

namespace SessionDb

/-- Session values handed to the store (`value interface{}` in Go): the
serializable payloads the claims quantify over.  `vtime` models a `time.Time`
instant as an integer timestamp. -/
inductive GoValue where
  | vnat : Nat → GoValue
  | vstr : String → GoValue
  | vtime : Int → GoValue
deriving DecidableEq, Repr

/-- Models `sessions.DefaultTranscoder.Marshal` (external library): an
injective, always-successful serialization of a value into a byte list. -/
def Marshal : GoValue → List Nat
  | .vnat n => [0, n]
  | .vstr s => 1 :: s.data.map Char.toNat
  | .vtime t => if 0 ≤ t then [2, 0, t.toNat] else [2, 1, (-t).toNat]

/-- Models `sessions.DefaultTranscoder.Unmarshal` (external library): the
partial inverse of `Marshal`; `none` models a deserialization failure. -/
def Unmarshal (bs : List Nat) : Option GoValue :=
  match bs with
  | 0 :: rest =>
    match rest with
    | [n] => some (.vnat n)
    | _ => none
  | 1 :: cs => some (.vstr (String.mk (cs.map Char.ofNat)))
  | 2 :: rest =>
    match rest with
    | [0, n] => some (.vtime (Int.ofNat n))
    | [1, n] => some (.vtime (-(Int.ofNat n)))
    | _ => none
  | _ => none

/-- Models `base64.StdEncoding.EncodeToString` (external library) at the level
of its contract: an injective rendering of a byte list as a string, for which
`b64Decode` is a left inverse.  Byte `n` is rendered as `n` copies of `A`
followed by a `/` separator. -/
def b64EncodeList : List Nat → List Char
  | [] => []
  | n :: rest => List.replicate n 'A' ++ '/' :: b64EncodeList rest

/-- String form of `b64EncodeList`. -/
def b64Encode (bs : List Nat) : String := String.mk (b64EncodeList bs)

/-- Worker for `b64Decode`: counts the characters before each `/` separator. -/
def b64DecodeList : List Char → Nat → List Nat
  | [], _ => []
  | c :: rest, acc => if c = '/' then acc :: b64DecodeList rest 0 else b64DecodeList rest (acc + 1)

/-- Models `base64.StdEncoding.DecodeString` (external library): total decoder,
a left inverse of `b64Encode`. -/
def b64Decode (s : String) : List Nat := b64DecodeList s.data 0

/-- Models `sessions.LifeTime`: the expiration instant a store reports back to
the session manager. -/
structure LifeTime where
  time : Int
deriving DecidableEq, Repr

/-- The instant 2009-11-10 23:00:00 UTC (its Unix timestamp), used by both
stores as the first-touch sentinel: `cookieExpireDelete` in mongostore and
`sessions.CookieExpireDelete` in dgraphstore denote this same instant. -/
def cookieExpireDelete : Int := 1257894000

/-- Go's zero `time.Time`, the instant a failed unmarshal leaves behind,
modelled as timestamp 0. -/
def timeZero : Int := 0

/-!
## MongoStore (src/mongostore/database.go)

A BSON value is here either a string or a flat subdocument of string fields —
the only shapes this code ever writes.  A collection is a list of documents;
the whole store maps each collection name (= session id) to its collection.
The driver calls (`FindOne`, `InsertOne`, `UpdateOne` with upsert,
`DeleteOne`, `DeleteMany`, `CountDocuments`, `Drop`) are modelled on lists
with MongoDB's documented semantics: filters `{f: x}` match documents whose
field `f` equals `x`, and `{f: {$ne: x}}` matches documents whose field `f`
is missing or differs from `x`.
-/

/-- A BSON value as written by this code: a string, or a flat subdocument of
string fields (the `$set` payloads). -/
inductive BsonValue where
  | str : String → BsonValue
  | doc : List (String × String) → BsonValue
deriving DecidableEq, Repr

/-- A BSON document: an ordered list of named fields. -/
abbrev Doc := List (String × BsonValue)

/-- A MongoDB collection: its documents in insertion order. -/
abbrev Collection := List Doc

/-- The MongoDB database: each collection name (this code uses the session id)
maps to its collection; absent collections are empty, as in MongoDB. -/
abbrev MongoState := String → Collection

/-- Models `bson.Raw.Lookup`: the value of the first field with the given name. -/
def docLookup (name : String) (d : Doc) : Option BsonValue :=
  (List.find? (fun f => f.1 == name) d).map (fun f => f.2)

/-- Whether a document matches the filter `bson.D{{"key", k}}`. -/
def matchesKey (k : String) (d : Doc) : Bool :=
  docLookup "key" d == some (.str k)

/-- Models `FindOne` with filter `{key: k}`: the first matching document. -/
def findOneKey (k : String) (c : Collection) : Option Doc :=
  List.find? (matchesKey k) c

/-- Applies `$set` of a single field: replace its first occurrence, else append it. -/
def setField (d : Doc) (name : String) (v : BsonValue) : Doc :=
  match d with
  | [] => [(name, v)]
  | f :: rest => if f.1 = name then (name, v) :: rest else f :: setField rest name v

/-- The update document `{$set: {key: k, value: vb}}` applied to a document. -/
def applySetKV (k vb : String) (d : Doc) : Doc :=
  setField (setField d "key" (.str k)) "value" (.str vb)

/-- The document `UpdateOne`'s upsert branch creates from the filter
`{key: k}` and the update `{$set: {key: k, value: vb}}`. -/
def newDocKV (k vb : String) : Doc :=
  [("key", .str k), ("value", .str vb)]

/-- Models `UpdateOne(filter {key: k}, update {$set: {key: k, value: vb}}, upsert)`:
update the first matching document, or insert a fresh one when none matches. -/
def mongoSetColl (k vb : String) : Collection → Collection
  | [] => [newDocKV k vb]
  | d :: rest =>
    if matchesKey k d then applySetKV k vb d :: rest else d :: mongoSetColl k vb rest

/-- Replace one collection of the database, leaving the others alone. -/
def updateColl (st : MongoState) (sid : String) (f : Collection → Collection) : MongoState :=
  fun s => if s = sid then f (st s) else st s

/-- The bootstrap document `Acquire`'s first-touch path hands to `InsertOne`:
`bson.D{{"$set", bson.D{{"key", sid}, {"value", timeBase}}}}` — a single
top-level field literally named `$set` (src/mongostore/database.go:67-70). -/
def mongoBootstrapDoc (sid timeBase : String) : Doc :=
  [("$set", .doc [("key", sid), ("value", timeBase)])]

/-- Decoding the `value` field of a found document into an expiration instant,
as `Acquire`'s found branch does: base64-decode, unmarshal a `time.Time`.
A failed unmarshal leaves the zero time (src/mongostore/database.go:76-82). -/
def docDecodeTime (d : Doc) : Int :=
  match docLookup "value" d with
  | some (.str s) =>
    match Unmarshal (b64Decode s) with
    | some (.vtime t) => t
    | _ => timeZero
  | _ => timeZero

/-- Go `Acquire(sid, expires)` (src/mongostore/database.go:57-83): `FindOne` by
`{key: sid}`; when absent, insert the bootstrap document storing
base64(marshal(now+expires)) and return the sentinel lifetime; when found,
decode and return the stored expiry.  `now` makes `time.Now()` explicit. -/
def mongoAcquire (now : Int) (st : MongoState) (sid : String) (expires : Int) :
    MongoState × LifeTime :=
  match findOneKey sid (st sid) with
  | none =>
    let timeBase := b64Encode (Marshal (.vtime (now + expires)))
    (updateColl st sid (fun c => c ++ [mongoBootstrapDoc sid timeBase]),
     ⟨cookieExpireDelete⟩)
  | some d => (st, ⟨docDecodeTime d⟩)

/-- Go `Set(sid, key, value, dur, immutable)` (src/mongostore/database.go:93-112):
marshal, base64-encode, upsert `{key, value}`; `dur` and `immutable` are
accepted but unused.  The marshal of the model is total, so the returned
error is always `none` (nil). -/
def mongoSet (st : MongoState) (sid key : String) (value : GoValue)
    (dur : Int) (immutable : Bool) : MongoState × Option Unit :=
  let valueBase := b64Encode (Marshal value)
  (updateColl st sid (mongoSetColl key valueBase), none)

/-- The outcome of `Decode`: MongoDB's `ErrNoDocuments` when nothing matched,
or nil error together with what got bound to `outPtr` (`none` when the
unmarshal failed and left it untouched). -/
inductive DecodeResult where
  | errNoDocuments : DecodeResult
  | ok : Option GoValue → DecodeResult
deriving DecidableEq, Repr

/-- The value a found document binds to `outPtr`: base64-decode the `value`
field and unmarshal, ignoring the unmarshal error
(src/mongostore/database.go:139-141). -/
def docDecodeValue (d : Doc) : Option GoValue :=
  match docLookup "value" d with
  | some (.str s) => Unmarshal (b64Decode s)
  | _ => none

/-- Go `Decode(sid, key, outPtr)` (src/mongostore/database.go:124-143): `FindOne`
by `{key: key}`; no match surfaces the driver's `ErrNoDocuments`, a match
returns nil after the (error-ignored) unmarshal into `outPtr`. -/
def mongoDecode (st : MongoState) (sid key : String) : DecodeResult :=
  match findOneKey key (st sid) with
  | none => .errNoDocuments
  | some d => .ok (docDecodeValue d)

/-- Go `Get(sid, key)` (src/mongostore/database.go:115-121): `Decode` with errors
swallowed into nil. -/
def mongoGet (st : MongoState) (sid key : String) : Option GoValue :=
  match mongoDecode st sid key with
  | .ok v => v
  | .errNoDocuments => none

/-- Go `Len(sid)` (src/mongostore/database.go:171-179): `CountDocuments` with the
empty filter — every document of the session's collection. -/
def mongoLen (st : MongoState) (sid : String) : Nat :=
  (st sid).length

/-- Models `DeleteOne` with filter `{key: k}`: remove the first matching document. -/
def deleteOneKey (k : String) : Collection → Collection
  | [] => []
  | d :: rest => if matchesKey k d then rest else d :: deleteOneKey k rest

/-- Go `Delete(sid, key)` (src/mongostore/database.go:182-191): `DeleteOne` by
`{key: key}`; reports `true` whenever the driver call returns no error. -/
def mongoDelete (st : MongoState) (sid key : String) : MongoState × Bool :=
  (updateColl st sid (deleteOneKey key), true)

/-- Go `Clear(sid)` (src/mongostore/database.go:194-197): `DeleteMany` with
filter `{key: {$ne: sid}}` — removes every document whose `key` field is
missing or differs from `sid`, keeping exactly those keyed by `sid`. -/
def mongoClear (st : MongoState) (sid : String) : MongoState :=
  updateColl st sid (List.filter (fun d => docLookup "key" d == some (.str sid)))

/-- Go `Release(sid)` (src/mongostore/database.go:201-203): drop the session's
whole collection. -/
def mongoRelease (st : MongoState) (sid : String) : MongoState :=
  fun s => if s = sid then [] else st s

/-- The empty MongoDB database. -/
def mongoEmpty : MongoState := fun _ => []

/-!
## DgraphStore (src/examples/dgraph/main.go, dgraphstore package)

A node carries a uid and an association list of string predicates (`sid`,
`skey`, `svalue`, `dgraph.type`).  The hand-built DQL queries
`q(func: eq(skey, k)) @filter(eq(sid, s))` are modelled as list filters over
predicate equality.  Upsert-block mutations over `uid(v)` follow Dgraph's
documented semantics: the set-nquads are applied to every node the query
variable matched, and when it matched none a single fresh node receives them.
-/

/-- A Dgraph node: its uid and its string predicates. -/
structure Node where
  uid : Nat
  preds : List (String × String)
deriving DecidableEq, Repr

/-- The Dgraph database: the stored nodes plus the next fresh uid. -/
structure DgraphState where
  nodes : List Node
  next : Nat
deriving DecidableEq, Repr

/-- The value of a node's predicate (first occurrence). -/
def predLookup (n : Node) (p : String) : Option String :=
  (List.find? (fun pr => pr.1 == p) n.preds).map (fun pr => pr.2)

/-- Whether a node satisfies `eq(skey, key)` together with `eq(sid, sid)` —
the query used by `Set`, `Get`/`Decode` and `Acquire`. -/
def nodeMatches (sid key : String) (n : Node) : Bool :=
  predLookup n "skey" == some key && predLookup n "sid" == some sid

/-- Set one predicate of a node: replace its first occurrence, else append. -/
def setPred (n : Node) (p v : String) : Node :=
  { n with preds := setPredList n.preds p v }
where
  setPredList : List (String × String) → String → String → List (String × String)
    | [], p, v => [(p, v)]
    | pr :: rest, p, v =>
      if pr.1 = p then (p, v) :: rest else pr :: setPredList rest p v

/-- The four set-nquads every write issues on `uid(v)`:
`<sid> sid`, `<skey> key`, `<svalue> valueBase`, `<dgraph.type> "SessionEntry"`. -/
def applyEntry (n : Node) (sid key valueBase : String) : Node :=
  setPred (setPred (setPred (setPred n "sid" sid) "skey" key) "svalue" valueBase)
    "dgraph.type" "SessionEntry"

/-- The node a write creates when `uid(v)` matched nothing. -/
def freshNode (uid : Nat) (sid key valueBase : String) : Node :=
  { uid := uid,
    preds := [("sid", sid), ("skey", key), ("svalue", valueBase),
              ("dgraph.type", "SessionEntry")] }

/-- The query `q(func: eq(skey, key)) @filter(eq(sid, sid)) { svalue }`: the
`svalue` of each matching node, in store order (missing `svalue` decodes to
the empty string through the response struct's zero value). -/
def dgraphQuerySvalues (st : DgraphState) (sid key : String) : List String :=
  (st.nodes.filter (nodeMatches sid key)).map
    (fun n => (predLookup n "svalue").getD "")

/-- Decoding one stored `svalue` into an expiration instant, as `Acquire`'s
found branch does; a failed unmarshal leaves the zero time
(src/examples/dgraph/main.go:227-231). -/
def svalueDecodeTime (s : String) : Int :=
  match Unmarshal (b64Decode s) with
  | some (.vtime t) => t
  | _ => timeZero

/-- Go `Acquire(sid, expires)` (src/examples/dgraph/main.go:175-232): query
`eq(skey, sid)` filtered by `eq(sid, sid)`; when empty, mutate a bootstrap
node holding base64(marshal(now+expires)) and return the sentinel lifetime;
otherwise decode and return the first stored `svalue`.  The first-touch
mutation's `uid(v)` has no query binding `v`, so the empty variable creates a
fresh node.  `now` makes `time.Now()` explicit. -/
def dgraphAcquire (now : Int) (st : DgraphState) (sid : String) (expires : Int) :
    DgraphState × LifeTime :=
  match dgraphQuerySvalues st sid sid with
  | [] =>
    let timeBase := b64Encode (Marshal (.vtime (now + expires)))
    ({ nodes := st.nodes ++ [freshNode st.next sid sid timeBase], next := st.next + 1 },
     ⟨cookieExpireDelete⟩)
  | v :: _ => (st, ⟨svalueDecodeTime v⟩)

/-- Go `Set(sid, lifetime, key, value, immutable)`
(src/examples/dgraph/main.go:242-278): marshal, base64-encode, then an upsert
block — the query binds `v` to the nodes with `skey = key` and `sid = sid`,
and the mutation sets all four predicates on `uid(v)` (on every matched node,
or on one fresh node when none matched).  `lifetime` and `immutable` are
accepted but unused. -/
def dgraphSet (st : DgraphState) (sid : String) (lifetime : LifeTime)
    (key : String) (value : GoValue) (immutable : Bool) : DgraphState :=
  let valueBase := b64Encode (Marshal value)
  let upd := fun n =>
    if nodeMatches sid key n then applyEntry n sid key valueBase else n
  if st.nodes.any (nodeMatches sid key) then
    { st with nodes := st.nodes.map upd }
  else
    { nodes := st.nodes ++ [freshNode st.next sid key valueBase], next := st.next + 1 }

/-- Go `Decode(sid, key, outPtr)` (src/examples/dgraph/main.go:290-324): run the
query; an empty result returns nil WITHOUT touching `outPtr` — the same nil
outcome as a failed unmarshal of a found entry. -/
def dgraphDecode (st : DgraphState) (sid key : String) : DecodeResult :=
  match dgraphQuerySvalues st sid key with
  | [] => .ok none
  | v :: _ => .ok (Unmarshal (b64Decode v))

/-- Go `Get(sid, key)` (src/examples/dgraph/main.go:281-287): `Decode` with
errors swallowed into nil. -/
def dgraphGet (st : DgraphState) (sid key : String) : Option GoValue :=
  match dgraphDecode st sid key with
  | .ok v => v
  | .errNoDocuments => none

/-- Go `Len(sid)` (src/examples/dgraph/main.go:371-398): `count(uid)` over
`q(func: eq(sid, sid))` — every node whose `sid` predicate equals the
session id, bootstrap included. -/
def dgraphLen (st : DgraphState) (sid : String) : Nat :=
  (st.nodes.filter (fun n => predLookup n "sid" == some sid)).length

/-- Go `Delete(sid, key)` (src/examples/dgraph/main.go:401-428): the query binds
`v` to every node with `sid = sid`, and the del-nquad `uid(v) "key" * .`
deletes the PREDICATE NAMED `key` from each of them — not the entry whose
`skey` equals `key`.  Session entries keep their data under `sid`/`skey`/
`svalue`, so for ordinary keys nothing is removed; `true` is returned. -/
def dgraphDelete (st : DgraphState) (sid key : String) : DgraphState × Bool :=
  let upd := fun (n : Node) =>
    if predLookup n "sid" == some sid then
      { n with preds := n.preds.filter (fun pr => pr.1 ≠ key) }
    else n
  ({ st with nodes := st.nodes.map upd }, true)

/-- The delete-JSON `Clear` issues for one surviving entry: drop the triples
`{uid, skey, svalue, sid}` with exactly the queried values (missing
predicates marshal as the empty string). -/
def clearStrip (sid : String) (n : Node) : Node :=
  let k := (predLookup n "skey").getD ""
  let v := (predLookup n "svalue").getD ""
  let keep := fun (pr : String × String) =>
    ¬(pr = ("skey", k) ∨ pr = ("svalue", v) ∨ pr = ("sid", sid))
  { n with preds := n.preds.filter keep }

/-- Go `Clear(sid)` (src/examples/dgraph/main.go:431-475): query every node with
`sid = sid`; skip those whose `skey` equals the session id (the bootstrap);
for each other one, issue a delete-JSON mutation removing its `skey`,
`svalue` and `sid` triples. -/
def dgraphClear (st : DgraphState) (sid : String) : DgraphState :=
  let upd := fun (n : Node) =>
    if predLookup n "sid" == some sid && ((predLookup n "skey").getD "" != sid)
    then clearStrip sid n else n
  { st with nodes := st.nodes.map upd }

/-- Go `Release(sid)` (src/examples/dgraph/main.go:479-504): the del-nquad
`uid(v) * * .` over every node with `sid = sid` erases those nodes whole. -/
def dgraphRelease (st : DgraphState) (sid : String) : DgraphState :=
  { st with nodes := st.nodes.filter (fun n => !(predLookup n "sid" == some sid)) }

/-- The empty Dgraph database. -/
def dgraphEmpty : DgraphState := { nodes := [], next := 0 }

/-- A sequence of `Set` calls on one MongoStore session, one per key/value
pair (the "N Sets of distinct keys" of the spec's `Len` property). -/
def mongoSetMany (st : MongoState) (sid : String) : List (String × GoValue) → MongoState
  | [] => st
  | kv :: rest => mongoSetMany (mongoSet st sid kv.1 kv.2 0 false).1 sid rest

/-- A sequence of `Set` calls on one DgraphStore session, one per key/value
pair. -/
def dgraphSetMany (st : DgraphState) (sid : String) : List (String × GoValue) → DgraphState
  | [] => st
  | kv :: rest => dgraphSetMany (dgraphSet st sid ⟨0⟩ kv.1 kv.2 false) sid rest

/-!
## Round-trip lemmas for the external serialization layers
-/

theorem char_ofNat_toNat (c : Char) : Char.ofNat c.toNat = c := by
  have hv : c.toNat.isValidChar := by
    have := c.valid
    simpa [Char.toNat, UInt32.isValidChar, UInt32.toNat] using this
  unfold Char.ofNat
  rw [dif_pos hv]
  unfold Char.ofNatAux
  apply Char.ext
  apply UInt32.ext
  simp [Char.toNat, UInt32.toNat]

/-- The transcoder round-trip: `Unmarshal` inverts `Marshal`. -/
theorem unmarshal_marshal (v : GoValue) : Unmarshal (Marshal v) = some v := by
  cases v with
  | vnat n => rfl
  | vstr s =>
    have hmap : ∀ l : List Char, List.map Char.ofNat (List.map Char.toNat l) = l := by
      intro l
      induction l with
      | nil => rfl
      | cons c cs ih => simp [char_ofNat_toNat, ih]
    simp [Marshal, Unmarshal, hmap]
  | vtime t =>
    by_cases h : 0 ≤ t
    · simp [Marshal, Unmarshal, h, Int.toNat_of_nonneg h]
    · have h2 : 0 ≤ -t := by omega
      simp [Marshal, Unmarshal, h, Int.toNat_of_nonneg h2]

theorem b64DecodeList_replicate (n : Nat) (l : List Char) (acc : Nat) :
    b64DecodeList (List.replicate n 'A' ++ l) acc = b64DecodeList l (acc + n) := by
  induction n generalizing acc with
  | zero => simp
  | succ k ih =>
    rw [List.replicate_succ]
    simp only [List.cons_append, b64DecodeList, if_neg (by decide : ¬('A' = '/')),
      List.append_eq]
    rw [ih]
    congr 1
    omega

/-- The base64 round-trip: `b64Decode` inverts `b64Encode`. -/
theorem b64_decode_encode (bs : List Nat) : b64Decode (b64Encode bs) = bs := by
  show b64DecodeList (b64EncodeList bs) 0 = bs
  induction bs with
  | nil => rfl
  | cons n rest ih =>
    simp only [b64EncodeList, b64DecodeList_replicate, b64DecodeList, if_pos rfl]
    simpa using ih

/-!
## Helper lemmas: MongoStore
-/

theorem docLookup_nil (name : String) : docLookup name [] = none := rfl

theorem docLookup_cons (name : String) (f : String × BsonValue) (l : Doc) :
    docLookup name (f :: l) =
      if f.1 == name then some f.2 else docLookup name l := by
  simp only [docLookup, List.find?_cons]
  by_cases h : f.1 == name
  · simp [h]
  · simp [h]

theorem docLookup_setField_self (d : Doc) (name : String) (v : BsonValue) :
    docLookup name (setField d name v) = some v := by
  induction d with
  | nil => simp [setField, docLookup_cons]
  | cons f rest ih =>
    by_cases h : f.1 = name
    · simp [setField, h, docLookup_cons]
    · have hb : (f.1 == name) = false := by simpa using h
      simp [setField, h, hb, docLookup_cons, ih]

theorem docLookup_setField_other (d : Doc) (name q : String) (v : BsonValue)
    (hq : q ≠ name) : docLookup q (setField d name v) = docLookup q d := by
  induction d with
  | nil => simp [setField, docLookup_cons, docLookup_nil, Ne.symm hq]
  | cons f rest ih =>
    by_cases h : f.1 = name
    · simp [setField, h, docLookup_cons, Ne.symm hq]
    · simp only [setField, if_neg h, docLookup_cons]
      by_cases h2 : f.1 == q
      · simp [h2]
      · simp [h2, ih]

theorem matchesKey_applySetKV (k vb : String) (d : Doc) :
    matchesKey k (applySetKV k vb d) = true := by
  simp [matchesKey, applySetKV,
    docLookup_setField_other _ "value" "key" _ (by decide),
    docLookup_setField_self]

theorem docLookup_value_applySetKV (k vb : String) (d : Doc) :
    docLookup "value" (applySetKV k vb d) = some (.str vb) := by
  simp [applySetKV, docLookup_setField_self]

theorem docLookup_newDocKV_key (k vb : String) :
    docLookup "key" (newDocKV k vb) = some (.str k) := by
  simp [newDocKV, docLookup_cons]

theorem docLookup_newDocKV_value (k vb : String) :
    docLookup "value" (newDocKV k vb) = some (.str vb) := by
  simp [newDocKV, docLookup_cons]

theorem findOneKey_mongoSetColl_self (k vb : String) (c : Collection) :
    ∃ d, findOneKey k (mongoSetColl k vb c) = some d ∧
      docLookup "value" d = some (.str vb) := by
  induction c with
  | nil =>
    refine ⟨newDocKV k vb, ?_, docLookup_newDocKV_value k vb⟩
    simp [findOneKey, mongoSetColl, matchesKey, docLookup_newDocKV_key]
  | cons d rest ih =>
    by_cases h : matchesKey k d
    · refine ⟨applySetKV k vb d, ?_, docLookup_value_applySetKV k vb d⟩
      simp [findOneKey, mongoSetColl, h, List.find?_cons_of_pos, matchesKey_applySetKV]
    · obtain ⟨d', hfind, hval⟩ := ih
      refine ⟨d', ?_, hval⟩
      simp only [findOneKey, mongoSetColl, if_neg h] at *
      rw [List.find?_cons_of_neg _ (by simpa using h)]
      exact hfind

theorem findOneKey_mongoSetColl_absent_length (k vb : String) (c : Collection)
    (h : findOneKey k c = none) :
    (mongoSetColl k vb c).length = c.length + 1 := by
  induction c with
  | nil => rfl
  | cons d rest ih =>
    simp only [findOneKey, List.find?] at h
    by_cases hd : matchesKey k d
    · simp [hd] at h
    · simp only [mongoSetColl, if_neg hd, List.length_cons]
      rw [ih]
      · simp only [findOneKey]
        simpa [hd] using h

theorem findOneKey_mongoSetColl_other (k k' vb : String) (c : Collection)
    (hne : k' ≠ k) (h : findOneKey k' c = none) :
    findOneKey k' (mongoSetColl k vb c) = none := by
  induction c with
  | nil =>
    simp [findOneKey, mongoSetColl, matchesKey, docLookup_newDocKV_key, Ne.symm hne]
  | cons d rest ih =>
    simp only [findOneKey, List.find?] at h
    by_cases hd : matchesKey k' d
    · simp [hd] at h
    · simp only [hd] at h
      by_cases hk : matchesKey k d
      · have : ¬(matchesKey k' (applySetKV k vb d) = true) := by
          simp [matchesKey, applySetKV,
            docLookup_setField_other _ "value" "key" _ (by decide),
            docLookup_setField_self, Ne.symm hne]
        simp only [findOneKey, mongoSetColl, if_pos hk]
        rw [List.find?_cons_of_neg _ (by simpa using this)]
        exact h
      · simp only [findOneKey, mongoSetColl, if_neg hk]
        rw [List.find?_cons_of_neg _ (by simpa using hd)]
        exact ih h

theorem matchesKey_mongoBootstrapDoc (k sid tb : String) :
    matchesKey k (mongoBootstrapDoc sid tb) = false := by
  simp [matchesKey, mongoBootstrapDoc, docLookup_cons, docLookup_nil]

/-!
## Helper lemmas: DgraphStore
-/

theorem predLookup_cons (n : Node) (pr : String × String) (l : List (String × String))
    (p : String) (h : n.preds = pr :: l) :
    predLookup n p = if pr.1 == p then some pr.2 else
      predLookup { n with preds := l } p := by
  simp only [predLookup, h, List.find?_cons]
  by_cases hb : pr.1 == p
  · simp [hb]
  · simp [hb]

theorem predLookup_setPred_self (n : Node) (p v : String) :
    predLookup (setPred n p v) p = some v := by
  show (List.find? (fun pr => pr.1 == p) (setPred.setPredList n.preds p v)).map
    (fun pr => pr.2) = some v
  generalize n.preds = l
  induction l with
  | nil => simp [setPred.setPredList, List.find?_cons]
  | cons pr rest ih =>
    by_cases h : pr.1 = p
    · simp [setPred.setPredList, h, List.find?_cons]
    · have hb : (pr.1 == p) = false := by simpa using h
      simpa [setPred.setPredList, if_neg h, List.find?_cons, hb] using ih

theorem predLookup_setPred_other (n : Node) (p v q : String) (hq : q ≠ p) :
    predLookup (setPred n p v) q = predLookup n q := by
  show (List.find? (fun pr => pr.1 == q) (setPred.setPredList n.preds p v)).map
      (fun pr => pr.2)
    = (List.find? (fun pr => pr.1 == q) n.preds).map (fun pr => pr.2)
  generalize n.preds = l
  have hp : (p == q) = false := by simpa using Ne.symm hq
  induction l with
  | nil => simp [setPred.setPredList, List.find?_cons, hp]
  | cons pr rest ih =>
    by_cases h : pr.1 = p
    · have hb : (pr.1 == q) = false := by rw [h]; exact hp
      simp [setPred.setPredList, h, List.find?_cons, hb, hp]
    · simp only [setPred.setPredList, if_neg h, List.find?_cons]
      by_cases h2 : pr.1 == q
      · simp [h2]
      · simpa [h2] using ih

theorem predLookup_applyEntry_skey (n : Node) (sid key vb : String) :
    predLookup (applyEntry n sid key vb) "skey" = some key := by
  unfold applyEntry
  rw [predLookup_setPred_other _ _ _ _ (by decide : ("skey" : String) ≠ "dgraph.type")]
  rw [predLookup_setPred_other _ _ _ _ (by decide : ("skey" : String) ≠ "svalue")]
  rw [predLookup_setPred_self]

theorem predLookup_applyEntry_sid (n : Node) (sid key vb : String) :
    predLookup (applyEntry n sid key vb) "sid" = some sid := by
  unfold applyEntry
  rw [predLookup_setPred_other _ _ _ _ (by decide : ("sid" : String) ≠ "dgraph.type")]
  rw [predLookup_setPred_other _ _ _ _ (by decide : ("sid" : String) ≠ "svalue")]
  rw [predLookup_setPred_other _ _ _ _ (by decide : ("sid" : String) ≠ "skey")]
  rw [predLookup_setPred_self]

theorem predLookup_applyEntry_svalue (n : Node) (sid key vb : String) :
    predLookup (applyEntry n sid key vb) "svalue" = some vb := by
  unfold applyEntry
  rw [predLookup_setPred_other _ _ _ _ (by decide : ("svalue" : String) ≠ "dgraph.type")]
  rw [predLookup_setPred_self]

theorem nodeMatches_applyEntry (n : Node) (sid key vb : String) :
    nodeMatches sid key (applyEntry n sid key vb) = true := by
  simp [nodeMatches, predLookup_applyEntry_skey, predLookup_applyEntry_sid]

theorem predLookup_freshNode_sid (u : Nat) (sid key vb : String) :
    predLookup (freshNode u sid key vb) "sid" = some sid := by
  simp [freshNode, predLookup, List.find?_cons]

theorem predLookup_freshNode_skey (u : Nat) (sid key vb : String) :
    predLookup (freshNode u sid key vb) "skey" = some key := by
  simp [freshNode, predLookup, List.find?_cons]

theorem predLookup_freshNode_svalue (u : Nat) (sid key vb : String) :
    predLookup (freshNode u sid key vb) "svalue" = some vb := by
  simp [freshNode, predLookup, List.find?_cons]

theorem nodeMatches_freshNode (u : Nat) (sid key vb : String) :
    nodeMatches sid key (freshNode u sid key vb) = true := by
  simp [nodeMatches, predLookup_freshNode_sid, predLookup_freshNode_skey]

theorem dgraphSet_filter_head (sid key vb : String) (l : List Node)
    (h : l.any (nodeMatches sid key) = true) :
    ∃ n rest,
      (l.map (fun n => if nodeMatches sid key n then applyEntry n sid key vb else n)).filter
          (nodeMatches sid key) = n :: rest ∧
      predLookup n "svalue" = some vb := by
  induction l with
  | nil => simp at h
  | cons m l ih =>
    by_cases hm : nodeMatches sid key m
    · refine ⟨applyEntry m sid key vb,
        (l.map (fun n => if nodeMatches sid key n then applyEntry n sid key vb else n)).filter
          (nodeMatches sid key),
        ?_, predLookup_applyEntry_svalue m sid key vb⟩
      simp [hm, List.filter_cons, nodeMatches_applyEntry]
    · have hl : l.any (nodeMatches sid key) = true := by
        simpa [hm] using h
      obtain ⟨n, rest, hfilter, hval⟩ := ih hl
      refine ⟨n, rest, ?_, hval⟩
      simpa [hm, List.filter_cons] using hfilter

theorem filter_eq_nil_of_any_false {p : Node → Bool} {l : List Node}
    (h : l.any p = false) : l.filter p = [] := by
  induction l with
  | nil => rfl
  | cons m l ih =>
    simp only [List.any_cons, Bool.or_eq_false_iff] at h
    simp [List.filter_cons, h.1, ih h.2]

/-!
## The claims
-/

/-- C1: for every session id, key and serializable value, `Set(s,k,v)` followed
by `Get(s,k)` on the same store returns a value equal to `v` under the
serialization/base64 round-trip, in both MongoStore and DgraphStore. -/
theorem set_get_roundtrip (st : MongoState) (dst : DgraphState) (sid key : String)
    (v : GoValue) (dur : Int) (immutable : Bool) (lifetime : LifeTime) :
    mongoGet (mongoSet st sid key v dur immutable).1 sid key = some v ∧
    dgraphGet (dgraphSet dst sid lifetime key v immutable) sid key = some v := by
  constructor
  · have hset : (mongoSet st sid key v dur immutable).1 sid
        = mongoSetColl key (b64Encode (Marshal v)) (st sid) := by
      simp [mongoSet, updateColl]
    obtain ⟨d, hfind, hval⟩ :=
      findOneKey_mongoSetColl_self key (b64Encode (Marshal v)) (st sid)
    simp only [mongoGet, mongoDecode, hset, hfind]
    simp [docDecodeValue, hval, b64_decode_encode, unmarshal_marshal]
  · by_cases h : dst.nodes.any (nodeMatches sid key)
    · obtain ⟨n, rest, hfilter, hval⟩ :=
        dgraphSet_filter_head sid key (b64Encode (Marshal v)) dst.nodes h
      simp only [dgraphGet, dgraphDecode, dgraphQuerySvalues, dgraphSet, h, if_pos]
      simp only [hfilter]
      simp [hval, b64_decode_encode, unmarshal_marshal]
    · have hb : dst.nodes.any (nodeMatches sid key) = false := by simpa using h
      simp only [dgraphGet, dgraphDecode, dgraphQuerySvalues, dgraphSet, hb]
      simp [List.filter_append, filter_eq_nil_of_any_false hb,
        List.filter_cons, nodeMatches_freshNode, predLookup_freshNode_svalue,
        b64_decode_encode, unmarshal_marshal]

/-- C8: the document that MongoStore `Acquire`'s first-touch path hands to
`InsertOne` has a single top-level field literally named `$set` (no top-level
`key`/`value` fields), so the `FindOne` filter `{key: sid}` that `Acquire`
itself uses never matches a document inserted by this path; in particular
appending such a document to a collection never changes what that filter
finds, and `Acquire`'s first-touch path appends exactly this document. -/
theorem acquire_bootstrap_never_found (sid sid' tb : String) (c : Collection) :
    (mongoBootstrapDoc sid tb).map Prod.fst = ["$set"] ∧
    docLookup "key" (mongoBootstrapDoc sid tb) = none ∧
    matchesKey sid' (mongoBootstrapDoc sid tb) = false ∧
    findOneKey sid' (c ++ [mongoBootstrapDoc sid tb]) = findOneKey sid' c ∧
    (∀ now st expires, findOneKey sid (st sid) = none →
      (mongoAcquire now st sid expires).1 sid
        = st sid ++ [mongoBootstrapDoc sid (b64Encode (Marshal (.vtime (now + expires))))]) := by
  refine ⟨rfl, ?_, matchesKey_mongoBootstrapDoc sid' sid tb, ?_, ?_⟩
  · simp [mongoBootstrapDoc, docLookup_cons, docLookup_nil]
  · induction c with
    | nil => simp [findOneKey, List.find?, matchesKey_mongoBootstrapDoc]
    | cons d rest ih =>
      by_cases h : matchesKey sid' d
      · simp [findOneKey, List.find?_cons, h]
      · simp only [findOneKey, List.cons_append, List.find?_cons, h] at *
        exact ih
  · intro now st expires hnone
    simp [mongoAcquire, hnone, updateColl]

/-- Witness for C8: appending the bootstrap document changes nothing for the
`{key: sid}` filter at a concrete collection, and the concrete first-touch
`Acquire` appends exactly the bootstrap document. -/
theorem acquire_bootstrap_never_found_witness :
    findOneKey "s" ([newDocKV "k" "y"] ++ [mongoBootstrapDoc "s" "tb"])
      = findOneKey "s" [newDocKV "k" "y"] ∧
    (mongoAcquire 0 mongoEmpty "s" 5).1 "s"
      = mongoEmpty "s" ++ [mongoBootstrapDoc "s" (b64Encode (Marshal (.vtime (0 + 5))))] :=
  ⟨(acquire_bootstrap_never_found "s" "s" "tb" [newDocKV "k" "y"]).2.2.2.1,
   (acquire_bootstrap_never_found "s" "s" "tb" []).2.2.2.2 0 mongoEmpty 5 rfl⟩

/-- C10: the `immutable` flag is accepted but ignored by `Set` — two calls
differing only in it produce the same result and the same store state, in
both MongoStore and DgraphStore. -/
theorem set_immutable_irrelevant (st : MongoState) (dst : DgraphState)
    (sid key : String) (v : GoValue) (dur : Int) (lifetime : LifeTime)
    (i1 i2 : Bool) :
    mongoSet st sid key v dur i1 = mongoSet st sid key v dur i2 ∧
    dgraphSet dst sid lifetime key v i1 = dgraphSet dst sid lifetime key v i2 :=
  ⟨rfl, rfl⟩

/-- C2: `Acquire(sid, ttl)` looks up the session's bootstrap record; when it
is absent it creates one whose stored expiry equals `now + ttl` and returns
the sentinel lifetime, and when it is present it decodes and returns the
stored expiry — in both MongoStore and DgraphStore. -/
theorem acquire_spec (now : Int) (st : MongoState) (dst : DgraphState)
    (sid : String) (expires : Int) :
    (findOneKey sid (st sid) = none →
      (mongoAcquire now st sid expires).2 = ⟨cookieExpireDelete⟩ ∧
      (mongoAcquire now st sid expires).1 sid
        = st sid ++ [mongoBootstrapDoc sid (b64Encode (Marshal (.vtime (now + expires))))] ∧
      Unmarshal (b64Decode (b64Encode (Marshal (.vtime (now + expires)))))
        = some (.vtime (now + expires))) ∧
    (∀ d, findOneKey sid (st sid) = some d →
      mongoAcquire now st sid expires = (st, ⟨docDecodeTime d⟩) ∧
      ∀ t, docLookup "value" d = some (.str (b64Encode (Marshal (.vtime t)))) →
        docDecodeTime d = t) ∧
    (dgraphQuerySvalues dst sid sid = [] →
      (dgraphAcquire now dst sid expires).2 = ⟨cookieExpireDelete⟩ ∧
      (dgraphAcquire now dst sid expires).1.nodes
        = dst.nodes
            ++ [freshNode dst.next sid sid (b64Encode (Marshal (.vtime (now + expires))))] ∧
      svalueDecodeTime (b64Encode (Marshal (.vtime (now + expires)))) = now + expires) ∧
    (∀ v rest, dgraphQuerySvalues dst sid sid = v :: rest →
      dgraphAcquire now dst sid expires = (dst, ⟨svalueDecodeTime v⟩) ∧
      ∀ t, v = b64Encode (Marshal (.vtime t)) → svalueDecodeTime v = t) := by
  refine ⟨?_, ?_, ?_, ?_⟩
  · intro h
    refine ⟨?_, ?_, ?_⟩
    · simp [mongoAcquire, h]
    · simp [mongoAcquire, h, updateColl]
    · simp [b64_decode_encode, unmarshal_marshal]
  · intro d h
    refine ⟨?_, ?_⟩
    · simp [mongoAcquire, h]
    · intro t ht
      simp [docDecodeTime, ht, b64_decode_encode, unmarshal_marshal]
  · intro h
    refine ⟨?_, ?_, ?_⟩
    · simp [dgraphAcquire, h]
    · simp [dgraphAcquire, h]
    · simp [svalueDecodeTime, b64_decode_encode, unmarshal_marshal]
  · intro v rest h
    refine ⟨?_, ?_⟩
    · simp [dgraphAcquire, h]
    · intro t ht
      simp [svalueDecodeTime, ht, b64_decode_encode, unmarshal_marshal]

/-- Witness for C2: both branches of both stores, at concrete inputs. -/
theorem acquire_spec_witness :
    (mongoAcquire 0 mongoEmpty "s" 5).2 = ⟨cookieExpireDelete⟩ ∧
    (mongoAcquire 0
        (fun _ => [newDocKV "s" (b64Encode (Marshal (.vtime 42)))]) "s" 5).2
      = ⟨(42 : Int)⟩ ∧
    (dgraphAcquire 0 dgraphEmpty "s" 5).2 = ⟨cookieExpireDelete⟩ ∧
    (dgraphAcquire 0
        { nodes := [freshNode 0 "s" "s" (b64Encode (Marshal (.vtime 42)))], next := 1 }
        "s" 5).2
      = ⟨(42 : Int)⟩ := by
  refine ⟨?_, ?_, ?_, ?_⟩
  · exact ((acquire_spec 0 mongoEmpty dgraphEmpty "s" 5).1 rfl).1
  · have h := ((acquire_spec 0
        (fun _ => [newDocKV "s" (b64Encode (Marshal (.vtime 42)))]) dgraphEmpty
        "s" 5).2.1 (newDocKV "s" (b64Encode (Marshal (.vtime 42)))) rfl)
    have ht := h.2 42 (by rw [docLookup_newDocKV_value])
    rw [h.1, ht]
  · exact ((acquire_spec 0 mongoEmpty dgraphEmpty "s" 5).2.2.1 rfl).1
  · have h := ((acquire_spec 0 mongoEmpty
        { nodes := [freshNode 0 "s" "s" (b64Encode (Marshal (.vtime 42)))], next := 1 }
        "s" 5).2.2.2 (b64Encode (Marshal (.vtime 42))) [] (by
          simp [dgraphQuerySvalues, List.filter_cons, nodeMatches_freshNode,
            predLookup_freshNode_svalue]))
    have ht := h.2 42 rfl
    rw [h.1, ht]

theorem all_filter_self {α} (p : α → Bool) (l : List α) : (l.filter p).all p = true := by
  induction l with
  | nil => rfl
  | cons a l ih =>
    by_cases h : p a
    · simp [List.filter_cons, h, ih]
    · simp [List.filter_cons, h, ih]

theorem release_filter_nil (dst : DgraphState) (sid key : String) :
    (dgraphRelease dst sid).nodes.filter (nodeMatches sid key) = [] := by
  simp only [dgraphRelease]
  generalize dst.nodes = l
  induction l with
  | nil => rfl
  | cons n l ih =>
    by_cases h : predLookup n "sid" == some sid
    · simpa [List.filter_cons, h] using ih
    · have hb : (predLookup n "sid" == some sid) = false := by simpa using h
      have hm : nodeMatches sid key n = false := by
        simp [nodeMatches, hb]
      simpa [List.filter_cons, hb, hm] using ih

/-- C6: `Release(s)` removes every record of session `s` including the
bootstrap record, and a subsequent `Acquire(s, ttl)` behaves as first-touch —
it creates a fresh bootstrap record holding `now + ttl` and returns the
sentinel lifetime — in both MongoStore and DgraphStore. -/
theorem release_then_acquire_first_touch (now : Int) (st : MongoState)
    (dst : DgraphState) (sid : String) (expires : Int) :
    (mongoRelease st sid) sid = [] ∧
    (mongoAcquire now (mongoRelease st sid) sid expires).2 = ⟨cookieExpireDelete⟩ ∧
    (mongoAcquire now (mongoRelease st sid) sid expires).1 sid
      = [mongoBootstrapDoc sid (b64Encode (Marshal (.vtime (now + expires))))] ∧
    (dgraphRelease dst sid).nodes.all
        (fun n => !(predLookup n "sid" == some sid)) = true ∧
    (dgraphAcquire now (dgraphRelease dst sid) sid expires).2 = ⟨cookieExpireDelete⟩ ∧
    (dgraphAcquire now (dgraphRelease dst sid) sid expires).1.nodes
      = (dgraphRelease dst sid).nodes
          ++ [freshNode (dgraphRelease dst sid).next sid sid
                (b64Encode (Marshal (.vtime (now + expires))))] := by
  have hrel : (mongoRelease st sid) sid = [] := by simp [mongoRelease]
  have hfind : findOneKey sid ((mongoRelease st sid) sid) = none := by
    rw [hrel]; rfl
  have hq : dgraphQuerySvalues (dgraphRelease dst sid) sid sid = [] := by
    simp [dgraphQuerySvalues, release_filter_nil]
  refine ⟨hrel, ?_, ?_, ?_, ?_, ?_⟩
  · simp [mongoAcquire, hfind]
  · simp [mongoAcquire, hrel, findOneKey, List.find?, updateColl]
  · exact all_filter_self _ _
  · simp [dgraphAcquire, hq]
  · simp [dgraphAcquire, hq]

/-- The node-level view of `dgraphClear`. -/
theorem dgraphClear_nodes (dst : DgraphState) (sid : String) :
    (dgraphClear dst sid).nodes = dst.nodes.map
      (fun n => if predLookup n "sid" == some sid
          && ((predLookup n "skey").getD "" != sid)
        then clearStrip sid n else n) := rfl

theorem clearStrip_sid_ne (sid : String) (m : Node) :
    predLookup (clearStrip sid m) "sid" ≠ some sid := by
  intro h
  simp only [clearStrip, predLookup] at h
  obtain ⟨pr, hfind, hpr2⟩ := Option.map_eq_some'.mp h
  have hp := List.find?_some hfind
  have hmem := List.mem_of_find?_eq_some hfind
  have hkeep := (List.mem_filter.mp hmem).2
  have hnot := of_decide_eq_true hkeep
  exact hnot (Or.inr (Or.inr (by
    have h1 : pr.1 = "sid" := by simpa using hp
    exact Prod.ext h1 hpr2)))

/-- C4: `Clear(sid)` keeps every record keyed by the session id itself (the
bootstrap record) unchanged and removes every other record of the session;
MongoStore additionally leaves all other sessions' collections untouched. -/
theorem clear_keeps_only_bootstrap (st : MongoState) (dst : DgraphState) (sid : String) :
    (∀ d, d ∈ st sid → docLookup "key" d = some (.str sid) →
      d ∈ (mongoClear st sid) sid) ∧
    (∀ d, d ∈ (mongoClear st sid) sid →
      docLookup "key" d = some (.str sid) ∧ d ∈ st sid) ∧
    (∀ s, s ≠ sid → (mongoClear st sid) s = st s) ∧
    (∀ n, n ∈ dst.nodes → predLookup n "sid" = some sid →
      predLookup n "skey" = some sid → n ∈ (dgraphClear dst sid).nodes) ∧
    (∀ n, n ∈ (dgraphClear dst sid).nodes → predLookup n "sid" = some sid →
      (predLookup n "skey").getD "" = sid) := by
  have hcoll : (mongoClear st sid) sid
      = (st sid).filter (fun d => docLookup "key" d == some (.str sid)) := by
    simp [mongoClear, updateColl]
  refine ⟨?_, ?_, ?_, ?_, ?_⟩
  · intro d hd hkey
    rw [hcoll]
    exact List.mem_filter.mpr ⟨hd, by simp [hkey]⟩
  · intro d hd
    rw [hcoll] at hd
    obtain ⟨hmem, hkey⟩ := List.mem_filter.mp hd
    exact ⟨by simpa using hkey, hmem⟩
  · intro s hs
    simp [mongoClear, updateColl, hs]
  · intro n hn hsid hskey
    have hcond : (predLookup n "sid" == some sid
        && ((predLookup n "skey").getD "" != sid)) = false := by
      simp [hsid, hskey]
    rw [dgraphClear_nodes]
    have hmem := List.mem_map_of_mem
      (fun n => if predLookup n "sid" == some sid
          && ((predLookup n "skey").getD "" != sid)
        then clearStrip sid n else n) hn
    simpa [hcond] using hmem
  · intro n hn hsid
    rw [dgraphClear_nodes] at hn
    obtain ⟨m, hm, hupd⟩ := List.mem_map.mp hn
    by_cases hc : (predLookup m "sid" == some sid
        && ((predLookup m "skey").getD "" != sid)) = true
    · rw [if_pos hc] at hupd
      exact absurd (hupd ▸ hsid) (clearStrip_sid_ne sid m)
    · have hc' := eq_false_of_ne_true hc
      rw [if_neg (by simp [hc'])] at hupd
      subst hupd
      have hA : (predLookup m "sid" == some sid) = true := by simp [hsid]
      have hB : ((predLookup m "skey").getD "" != sid) = false := by
        cases hb : ((predLookup m "skey").getD "" != sid) with
        | false => rfl
        | true => simp [hA, hb] at hc'
      simpa using hB

/-- Witness for C4: a bootstrap-keyed record survives `Clear` at a concrete
two-record session in both stores. -/
theorem clear_keeps_only_bootstrap_witness :
    newDocKV "s" "x" ∈
      (mongoClear (fun _ => [newDocKV "s" "x", newDocKV "k" "y"]) "s") "s" ∧
    freshNode 0 "s" "s" "tb" ∈
      (dgraphClear { nodes := [freshNode 0 "s" "s" "tb", freshNode 1 "s" "k" "vv"], next := 2 } "s").nodes := by
  constructor
  · exact (clear_keeps_only_bootstrap
      (fun _ => [newDocKV "s" "x", newDocKV "k" "y"]) dgraphEmpty "s").1
      (newDocKV "s" "x") (by decide) (by decide)
  · exact (clear_keeps_only_bootstrap mongoEmpty
      { nodes := [freshNode 0 "s" "s" "tb", freshNode 1 "s" "k" "vv"], next := 2 }
      "s").2.2.2.1 (freshNode 0 "s" "s" "tb") (by decide) (by decide) (by decide)

theorem mongoSetMany_len (sid : String) (kvs : List (String × GoValue)) :
    ∀ st : MongoState, (∀ kv ∈ kvs, findOneKey kv.1 (st sid) = none) →
    (kvs.map Prod.fst).Nodup →
    mongoLen (mongoSetMany st sid kvs) sid = mongoLen st sid + kvs.length := by
  induction kvs with
  | nil => intro st _ _; simp [mongoSetMany]
  | cons kv rest ih =>
    intro st hab hnd
    have hst' : (mongoSet st sid kv.1 kv.2 0 false).1 sid
        = mongoSetColl kv.1 (b64Encode (Marshal kv.2)) (st sid) := by
      simp [mongoSet, updateColl]
    have habs : findOneKey kv.1 (st sid) = none := hab kv (List.mem_cons_self kv rest)
    simp only [List.map_cons, List.nodup_cons, List.mem_map] at hnd
    have habs' : ∀ kv' ∈ rest,
        findOneKey kv'.1 ((mongoSet st sid kv.1 kv.2 0 false).1 sid) = none := by
      intro kv' h'
      rw [hst']
      refine findOneKey_mongoSetColl_other _ _ _ _ ?_ (hab kv' (List.mem_cons_of_mem _ h'))
      intro heq
      exact hnd.1 ⟨kv', h', heq⟩
    have := ih (mongoSet st sid kv.1 kv.2 0 false).1 habs' hnd.2
    rw [mongoSetMany, this, mongoLen, hst',
      findOneKey_mongoSetColl_absent_length _ _ _ habs]
    simp [mongoLen]
    omega

theorem dgraphLen_append_fresh (st : DgraphState) (sid key vb : String) (u : Nat) :
    dgraphLen { nodes := st.nodes ++ [freshNode u sid key vb], next := u + 1 } sid
      = dgraphLen st sid + 1 := by
  simp [dgraphLen, List.filter_append, List.filter_cons, predLookup_freshNode_sid]

theorem dgraphSetMany_len (sid : String) (kvs : List (String × GoValue)) :
    ∀ st : DgraphState, (∀ kv ∈ kvs, st.nodes.any (nodeMatches sid kv.1) = false) →
    (kvs.map Prod.fst).Nodup →
    dgraphLen (dgraphSetMany st sid kvs) sid = dgraphLen st sid + kvs.length := by
  induction kvs with
  | nil => intro st _ _; simp [dgraphSetMany]
  | cons kv rest ih =>
    intro st hab hnd
    have habs : st.nodes.any (nodeMatches sid kv.1) = false :=
      hab kv (List.mem_cons_self kv rest)
    have hset : dgraphSet st sid ⟨0⟩ kv.1 kv.2 false
        = { nodes := st.nodes ++ [freshNode st.next sid kv.1 (b64Encode (Marshal kv.2))],
            next := st.next + 1 } := by
      simp [dgraphSet, habs]
    simp only [List.map_cons, List.nodup_cons, List.mem_map] at hnd
    have habs' : ∀ kv' ∈ rest,
        (dgraphSet st sid ⟨0⟩ kv.1 kv.2 false).nodes.any (nodeMatches sid kv'.1) = false := by
      intro kv' h'
      rw [hset]
      have hne : (kv.1 == kv'.1) = false := by
        simp only [beq_eq_false_iff_ne, ne_eq]
        intro heq
        exact hnd.1 ⟨kv', h', heq.symm⟩
      simp [List.any_append, hab kv' (List.mem_cons_of_mem _ h'), nodeMatches,
        predLookup_freshNode_skey, predLookup_freshNode_sid, hne]
    have := ih (dgraphSet st sid ⟨0⟩ kv.1 kv.2 false) habs' hnd.2
    rw [dgraphSetMany, this, hset, dgraphLen_append_fresh]
    simp
    omega

/-- C9: in both backends `Len(sid)` counts every stored record of the session
including the bootstrap record: a freshly bootstrapped session has length 1,
and after `Set`s of N distinct keys (all different from the session id) `Len`
returns N + 1. -/
theorem len_counts_bootstrap (now : Int) (sid : String) (expires : Int)
    (kvs : List (String × GoValue))
    (hnodup : (kvs.map Prod.fst).Nodup) (hsid : sid ∉ kvs.map Prod.fst) :
    mongoLen (mongoAcquire now mongoEmpty sid expires).1 sid = 1 ∧
    mongoLen (mongoSetMany (mongoAcquire now mongoEmpty sid expires).1 sid kvs) sid
      = kvs.length + 1 ∧
    dgraphLen (dgraphAcquire now dgraphEmpty sid expires).1 sid = 1 ∧
    dgraphLen (dgraphSetMany (dgraphAcquire now dgraphEmpty sid expires).1 sid kvs) sid
      = kvs.length + 1 := by
  have hm0 : (mongoAcquire now mongoEmpty sid expires).1 sid
      = [mongoBootstrapDoc sid (b64Encode (Marshal (.vtime (now + expires))))] := by
    simp [mongoAcquire, mongoEmpty, findOneKey, List.find?, updateColl]
  have hd0 : (dgraphAcquire now dgraphEmpty sid expires).1
      = { nodes := [freshNode 0 sid sid (b64Encode (Marshal (.vtime (now + expires))))],
          next := 1 } := by
    simp [dgraphAcquire, dgraphQuerySvalues, dgraphEmpty]
  have hmlen : mongoLen (mongoAcquire now mongoEmpty sid expires).1 sid = 1 := by
    simp [mongoLen, hm0]
  have hdlen : dgraphLen (dgraphAcquire now dgraphEmpty sid expires).1 sid = 1 := by
    simp [dgraphLen, hd0, List.filter_cons, predLookup_freshNode_sid]
  refine ⟨hmlen, ?_, hdlen, ?_⟩
  · have habs : ∀ kv ∈ kvs,
        findOneKey kv.1 ((mongoAcquire now mongoEmpty sid expires).1 sid) = none := by
      intro kv _
      rw [hm0]
      simp [findOneKey, List.find?, matchesKey_mongoBootstrapDoc]
    rw [mongoSetMany_len sid kvs _ habs hnodup, hmlen]
    omega
  · have habs : ∀ kv ∈ kvs,
        (dgraphAcquire now dgraphEmpty sid expires).1.nodes.any
          (nodeMatches sid kv.1) = false := by
      intro kv hkv
      rw [hd0]
      have hne : (sid == kv.1) = false := by
        simp only [beq_eq_false_iff_ne, ne_eq]
        intro heq
        exact hsid (heq ▸ List.mem_map_of_mem Prod.fst hkv)
      simp [nodeMatches, predLookup_freshNode_skey, predLookup_freshNode_sid, hne]
    rw [dgraphSetMany_len sid kvs _ habs hnodup, hdlen]
    omega

/-- Witness for C9: two distinct keys on a fresh session give length 3 in
both stores. -/
theorem len_counts_bootstrap_witness :
    mongoLen (mongoSetMany (mongoAcquire 0 mongoEmpty "s" 5).1 "s"
      [("a", .vnat 1), ("b", .vnat 2)]) "s" = 3 ∧
    dgraphLen (dgraphSetMany (dgraphAcquire 0 dgraphEmpty "s" 5).1 "s"
      [("a", .vnat 1), ("b", .vnat 2)]) "s" = 3 := by
  have h := len_counts_bootstrap 0 "s" 5 [("a", .vnat 1), ("b", .vnat 2)]
    (by decide) (by decide)
  exact ⟨h.2.1, h.2.2.2⟩

/-- C3 counterexample: in DgraphStore, `Decode` on an absent entry returns
exactly the same outcome (nil error, `outPtr` untouched) as `Decode` on a
present entry whose payload fails to deserialize — the not-found condition is
NOT distinguishable from a deserialization failure.  The states: an empty
store, and a store holding one entry for session "s", key "k", whose stored
`svalue` "X" does not decode to any value. -/
theorem dgraph_decode_absent_indistinguishable :
    dgraphDecode dgraphEmpty "s" "k" = .ok none ∧
    dgraphDecode { nodes := [freshNode 0 "s" "k" "X"], next := 1 } "s" "k" = .ok none ∧
    dgraphQuerySvalues dgraphEmpty "s" "k" = [] ∧
    dgraphQuerySvalues { nodes := [freshNode 0 "s" "k" "X"], next := 1 } "s" "k" = ["X"] ∧
    Unmarshal (b64Decode "X") = none := by
  refine ⟨rfl, ?_, rfl, ?_, rfl⟩
  · rfl
  · rfl

/-- C3 amended: MongoStore's `Decode` surfaces the driver's `ErrNoDocuments`
on an absent entry, distinct from the nil it returns when deserialization of
a found entry fails; DgraphStore's `Decode`, by contrast, returns nil both on
an absent entry and on a deserialization failure, so only MongoStore keeps
the two conditions distinguishable. -/
theorem decode_notfound_behaviour (st : MongoState) (dst : DgraphState)
    (sid key : String) :
    (findOneKey key (st sid) = none → mongoDecode st sid key = .errNoDocuments) ∧
    (∀ d, findOneKey key (st sid) = some d →
      mongoDecode st sid key = .ok (docDecodeValue d)) ∧
    (DecodeResult.errNoDocuments ≠ DecodeResult.ok none) ∧
    (dgraphQuerySvalues dst sid key = [] → dgraphDecode dst sid key = .ok none) ∧
    (∀ s rest, dgraphQuerySvalues dst sid key = s :: rest →
      Unmarshal (b64Decode s) = none → dgraphDecode dst sid key = .ok none) := by
  refine ⟨?_, ?_, by decide, ?_, ?_⟩
  · intro h
    simp [mongoDecode, h]
  · intro d h
    simp [mongoDecode, h]
  · intro h
    simp [dgraphDecode, h]
  · intro s rest h hu
    simp [dgraphDecode, h, hu]

/-- Witness for C3 (amended): the three outcomes at concrete stores. -/
theorem decode_notfound_behaviour_witness :
    mongoDecode mongoEmpty "s" "k" = .errNoDocuments ∧
    mongoDecode (fun _ => [newDocKV "k" "X"]) "s" "k" = .ok none ∧
    dgraphDecode dgraphEmpty "s" "k" = .ok none := by
  refine ⟨?_, ?_, ?_⟩
  · exact (decode_notfound_behaviour mongoEmpty dgraphEmpty "s" "k").1 rfl
  · have h := (decode_notfound_behaviour (fun _ => [newDocKV "k" "X"]) dgraphEmpty
      "s" "k").2.1 (newDocKV "k" "X") rfl
    rw [h]
    rfl
  · exact (decode_notfound_behaviour mongoEmpty dgraphEmpty "s" "k").2.2.2.1 rfl

/-- C5 at its failing input, on MongoStore: `Acquire` first-touch stores the
bootstrap as a `{$set: ...}` document; `Clear`'s `{key: {$ne: sid}}` filter
matches that document (its `key` field is missing) and deletes it, and the
following `Acquire` takes the first-touch branch again — it returns the
sentinel lifetime and inserts a fresh bootstrap — instead of reporting the
originally stored expiry 5. -/
theorem mongo_clear_then_acquire_bug :
    (mongoAcquire 0 mongoEmpty "abc123" 5).1 "abc123"
      = [mongoBootstrapDoc "abc123" (b64Encode (Marshal (.vtime 5)))] ∧
    (mongoAcquire 0 mongoEmpty "abc123" 5).2 = ⟨cookieExpireDelete⟩ ∧
    (mongoClear (mongoAcquire 0 mongoEmpty "abc123" 5).1 "abc123") "abc123" = [] ∧
    (mongoAcquire 9 (mongoClear (mongoAcquire 0 mongoEmpty "abc123" 5).1 "abc123")
        "abc123" 5).2 = ⟨cookieExpireDelete⟩ ∧
    (mongoAcquire 9 (mongoClear (mongoAcquire 0 mongoEmpty "abc123" 5).1 "abc123")
        "abc123" 5).1 "abc123"
      = [mongoBootstrapDoc "abc123" (b64Encode (Marshal (.vtime 14)))] ∧
    (⟨cookieExpireDelete⟩ : LifeTime) ≠ ⟨5⟩ := by
  refine ⟨by decide, by decide, by decide, by decide, by decide, by decide⟩

set_option maxRecDepth 8000 in
/-- C7 at its failing input, on DgraphStore: after storing `name ↦ "iris"` in
session "abc123", `Delete("abc123", "name")` reports `true` but leaves the
store completely unchanged (its del-nquad erases a predicate literally named
`name`, which no node has) — `Get` still returns the value and `Len` does not
decrease.  MongoStore at the same scenario behaves as the claim states. -/
theorem dgraph_delete_noop_bug :
    dgraphGet (dgraphSet (dgraphAcquire 0 dgraphEmpty "abc123" 5).1 "abc123" ⟨0⟩
        "name" (.vstr "iris") false) "abc123" "name" = some (.vstr "iris") ∧
    dgraphDelete (dgraphSet (dgraphAcquire 0 dgraphEmpty "abc123" 5).1 "abc123" ⟨0⟩
        "name" (.vstr "iris") false) "abc123" "name"
      = (dgraphSet (dgraphAcquire 0 dgraphEmpty "abc123" 5).1 "abc123" ⟨0⟩
          "name" (.vstr "iris") false, true) ∧
    dgraphLen (dgraphDelete (dgraphSet (dgraphAcquire 0 dgraphEmpty "abc123" 5).1
        "abc123" ⟨0⟩ "name" (.vstr "iris") false) "abc123" "name").1 "abc123" = 2 ∧
    dgraphLen (dgraphSet (dgraphAcquire 0 dgraphEmpty "abc123" 5).1 "abc123" ⟨0⟩
        "name" (.vstr "iris") false) "abc123" = 2 ∧
    mongoGet (mongoDelete (mongoSet (mongoAcquire 0 mongoEmpty "abc123" 5).1
        "abc123" "name" (.vstr "iris") 0 false).1 "abc123" "name").1
      "abc123" "name" = none ∧
    mongoLen (mongoDelete (mongoSet (mongoAcquire 0 mongoEmpty "abc123" 5).1
        "abc123" "name" (.vstr "iris") 0 false).1 "abc123" "name").1 "abc123" = 1 ∧
    mongoLen (mongoSet (mongoAcquire 0 mongoEmpty "abc123" 5).1
        "abc123" "name" (.vstr "iris") 0 false).1 "abc123" = 2 := by
  refine ⟨by decide, by decide, by decide, by decide, by decide, by decide, by decide⟩

/-- C5's intended behaviour does hold on DgraphStore: after first-touch
`Acquire` and `Clear`, a further `Acquire` still reports the originally
stored expiry (the bootstrap node survives `Clear`). -/
theorem dgraph_clear_then_acquire_ok :
    (dgraphAcquire 0 dgraphEmpty "abc123" 5).2 = ⟨cookieExpireDelete⟩ ∧
    (dgraphAcquire 9 (dgraphClear (dgraphAcquire 0 dgraphEmpty "abc123" 5).1
        "abc123") "abc123" 7).2 = ⟨(5 : Int)⟩ := by
  refine ⟨by decide, by decide⟩


end SessionDb
